import Mathlib

/-!
Shallow embedding of `src/code/data.py`: the per-entity feature aggregation
(`process_activity`, `process_text_change`, `prepare_data`) over an event
table, and the optional left join with a label table.

Numbers are embedded exactly: event durations and frequencies are rationals,
and the transcendental step (`math.log`, the square root inside `Series.std`)
is applied to them as real numbers in a separate, clearly marked layer.
A pandas NaN (missing value, or an undefined statistic) is `none`; a raised
Python exception is `Except.error`.
-/

/-- Python characterwise lower-casing (`str.lower`), via `Char.toLower` as the
vocabulary is ASCII. -/
def pyLower (s : String) : String := String.mk (s.data.map Char.toLower)

/-- Whether the pattern list heads the other list. -/
def leadMatch : List Char → List Char → Bool
  | [], _ => true
  | _ :: _, [] => false
  | p :: ps, c :: cs => p == c && leadMatch ps cs

/-- Whether the pattern occurs as a contiguous run of the list. -/
def hasSub (pat : List Char) : List Char → Bool
  | [] => leadMatch pat []
  | c :: cs => leadMatch pat (c :: cs) || hasSub pat cs

/-- Python substring test `pat in s` on strings. -/
def pyIn (pat s : String) : Bool := hasSub pat.data s.data

/-- Lexicographic code-point order on char lists: the order pandas sorts
string group keys by. -/
def charsLe : List Char → List Char → Bool
  | [], _ => true
  | _ :: _, [] => false
  | a :: as, b :: bs => if a = b then charsLe as bs else decide (a < b)

/-- Code-point order on strings. -/
def strLeB (a b : String) : Bool := charsLe a.data b.data

/-- The activity vocabulary, in the fixed order of the source. -/
def ACTIVITY_NAMES : List String :=
  ["nonproduction", "input", "remove/cut", "paste", "replace", "move"]

/-- The text-change vocabulary, in the fixed order of the source. -/
def TEXT_CHANGE_NAMES : List String := ["alphanum", "other"]

/-- The three timing column names, in the fixed order of the source. -/
def ACTION_TIME_COLS : List String :=
  ["action_time_max_log", "action_time_mean_log", "action_time_std_log"]

/-- The column list `['id', *ACTION_TIME_COLS, *ACTIVITY_NAMES,
*TEXT_CHANGE_NAMES]` the result table is built with. -/
def FEATURE_COLUMNS : List String :=
  ("id") :: (ACTION_TIME_COLS ++ ACTIVITY_NAMES ++ TEXT_CHANGE_NAMES)

/-- The per-value transform in `process_activity`:
`'move' if 'Move' in x else x.lower()`. -/
def bucketActivity (x : String) : String :=
  if pyIn ("Move") x then ("move") else pyLower x

/-- One entry of `value_counts(normalize=True)`: the count of the value
divided by the list length (0 for a value that does not occur, and on the
empty list). -/
def freqOf (l : List String) (name : String) : ℚ :=
  (l.count name : ℚ) / (l.length : ℚ)

/-- Embedding of `process_activity`: bucket every value, then read the
normalized counts off in vocabulary order. The source writes the counts into
a six-slot zero list through `ACTIVITY2IDX`, raising `KeyError` when some
bucketed value is outside the vocabulary; that failure is the `none` case. -/
def process_activity (data : List String) : Option (List ℚ) :=
  let activity := data.map bucketActivity
  if activity.all (fun x => ACTIVITY_NAMES.contains x) then
    some (ACTIVITY_NAMES.map (freqOf activity))
  else none

/-- The per-value transform in `process_text_change`:
`'alphanum' if x == 'q' else 'other'`. -/
def bucketTextChange (x : String) : String :=
  if x = ("q") then ("alphanum") else ("other")

/-- Embedding of `process_text_change`: bucket every value, then read the
normalized counts off in vocabulary order; every bucket is in the two-name
vocabulary, so the `TEXT_CHANGE2IDX` lookup of the source never fails. -/
def process_text_change (data : List String) : List ℚ :=
  let text_change := data.map bucketTextChange
  TEXT_CHANGE_NAMES.map (freqOf text_change)

/-- One event row: `action_time` is `none` for a missing (NaN) entry. -/
structure Event where
  id : String
  action_time : Option ℚ
  activity : String
  text_change : String
deriving DecidableEq, Repr

/-- Pandas drops NaN entries before max/mean/std (`skipna=True`). -/
def dropna (xs : List (Option ℚ)) : List ℚ := xs.filterMap id

/-- `Series.max`: NaN (`none`) when no non-null value remains. -/
def seriesMax (xs : List (Option ℚ)) : Option ℚ :=
  match dropna xs with
  | [] => none
  | y :: ys => some (ys.foldl max y)

/-- `Series.mean` over the non-null entries: NaN (`none`) when none remain. -/
def seriesMean (xs : List (Option ℚ)) : Option ℚ :=
  match dropna xs with
  | [] => none
  | y :: ys => some ((y :: ys).sum / ((y :: ys).length : ℚ))

/-- The square of `Series.std`: the `ddof=1` sample variance of the non-null
entries, NaN (`none`) when fewer than two remain. -/
def seriesVar (xs : List (Option ℚ)) : Option ℚ :=
  match dropna xs with
  | [] => none
  | [_] => none
  | y :: z :: zs =>
    let l := y :: z :: zs
    let m := l.sum / (l.length : ℚ)
    some ((l.map (fun x => (x - m) ^ 2)).sum / ((l.length : ℚ) - 1))

/-- The computable core of one feature row: the timing statistics are kept
before the real-valued logarithm and square root are applied; `none` models a
NaN statistic. -/
structure RowQ where
  id : String
  maxv : Option ℚ
  meanv : Option ℚ
  varv : Option ℚ
  activity_freqs : List ℚ
  text_change_freqs : List ℚ
deriving DecidableEq, Repr

/-- Domain guard of `math.log(v + 1)`: Python raises `ValueError` (math
domain error) when the argument is not positive, and returns NaN on NaN. -/
def logGuard (s : Option ℚ) : Except String (Option ℚ) :=
  match s with
  | none => Except.ok none
  | some v =>
    if v + 1 ≤ 0 then Except.error ("math domain error") else Except.ok (some v)

/-- One iteration of the loop body of `prepare_data`, split before the
transcendental functions: guarded max, guarded mean, variance (the argument
`std + 1 = sqrt(var) + 1` of its log never leaves the log's domain, and
`math.log` of NaN is NaN), then the two histograms — the evaluation order of
the source. -/
def rowCore (log_id : String) (group : List Event) : Except String RowQ :=
  let ts := group.map Event.action_time
  match logGuard (seriesMax ts) with
  | Except.error e => Except.error e
  | Except.ok maxv =>
    match logGuard (seriesMean ts) with
    | Except.error e => Except.error e
    | Except.ok meanv =>
      match process_activity (group.map Event.activity) with
      | none => Except.error ("KeyError")
      | some af =>
        Except.ok ⟨log_id, maxv, meanv, seriesVar ts, af,
          process_text_change (group.map Event.text_change)⟩

/-- Run the loop body over every group, stopping at the first raised error,
as the Python `for` loop over groups does. -/
def mapE {α β : Type} (f : α → Except String β) : List α → Except String (List β)
  | [] => Except.ok []
  | a :: as =>
    match f a with
    | Except.error e => Except.error e
    | Except.ok b =>
      match mapE f as with
      | Except.error e => Except.error e
      | Except.ok bs => Except.ok (b :: bs)

/-- The group keys of `df.groupby('id')`: the distinct ids, sorted the way
pandas sorts string keys. -/
def groupKeys (df : List Event) : List String :=
  List.insertionSort (fun a b => strLeB a b = true) ((df.map Event.id).dedup)

/-- The rows of one group, in input order. -/
def groupOf (df : List Event) (k : String) : List Event :=
  df.filter (fun e => e.id = k)

/-- The whole grouped loop of `prepare_data`, before logs are applied. -/
def prepare_core (df : List Event) : Except String (List RowQ) :=
  mapE (fun k => rowCore k (groupOf df k)) (groupKeys df)

/-- One output row of `prepare_data`; the three timing fields are real
numbers, `none` standing for NaN. -/
structure Row where
  id : String
  action_time_max_log : Option ℝ
  action_time_mean_log : Option ℝ
  action_time_std_log : Option ℝ
  activity_freqs : List ℚ
  text_change_freqs : List ℚ

/-- The transcendental part of the loop body: `math.log(max + 1)`,
`math.log(mean + 1)` and `math.log(std + 1)` with `std = sqrt(var)`. -/
noncomputable def mkRow (r : RowQ) : Row :=
  ⟨r.id,
   r.maxv.map (fun v => Real.log ((v : ℝ) + 1)),
   r.meanv.map (fun v => Real.log ((v : ℝ) + 1)),
   r.varv.map (fun v => Real.log (Real.sqrt (v : ℝ) + 1)),
   r.activity_freqs, r.text_change_freqs⟩

/-- A result table: its column names and its rows. -/
structure Frame (ρ : Type) where
  columns : List String
  rows : List ρ

/-- An optional labels table: one label column name, and rows keyed by id. -/
structure LabelFrame where
  label_col : String
  lrows : List (String × ℚ)

/-- Pandas `merge(labels, on='id', how='left')`: each left row is paired with
every matching right row in order, and with `none` when no right row
matches. -/
def merge_left {α : Type} (key : α → String) (rows : List α)
    (ls : List (String × ℚ)) : List (α × Option ℚ) :=
  rows.flatMap (fun r =>
    match ls.filter (fun p => p.1 = key r) with
    | [] => [(r, none)]
    | m :: ms => (m :: ms).map (fun p => (r, some p.2)))

/-- Embedding of `prepare_data`: the grouped loop, the result table with its
fixed column list, and the optional left join with the labels. -/
noncomputable def prepare_data (df : List Event) (labels : Option LabelFrame) :
    Except String ((Frame Row) ⊕ (Frame (Row × Option ℚ))) :=
  match prepare_core df with
  | Except.error e => Except.error e
  | Except.ok core =>
    let res : Frame Row := ⟨FEATURE_COLUMNS, core.map mkRow⟩
    match labels with
    | none => Except.ok (Sum.inl res)
    | some lf =>
      Except.ok (Sum.inr ⟨FEATURE_COLUMNS ++ [lf.label_col],
        merge_left Row.id res.rows lf.lrows⟩)

/-! Helper lemmas about the embedding. -/

/-- When every produced value projects back to its key, a successful `mapE`
run produces one value per key, in order. -/
theorem mapE_ok_map {α β : Type} (f : α → Except String β) (g : β → α)
    (hg : ∀ a b, f a = Except.ok b → g b = a) :
    ∀ (l : List α) (bs : List β), mapE f l = Except.ok bs → bs.map g = l := by
  intro l
  induction l with
  | nil =>
    intro bs h
    simp only [mapE, Except.ok.injEq] at h
    simp [← h]
  | cons a as ih =>
    intro bs h
    simp only [mapE] at h
    cases hfa : f a with
    | error e => rw [hfa] at h; simp at h
    | ok b =>
      rw [hfa] at h
      cases hrec : mapE f as with
      | error e => rw [hrec] at h; simp at h
      | ok bs2 =>
        rw [hrec] at h
        simp only [Except.ok.injEq] at h
        subst h
        simp [hg a b hfa, ih bs2 hrec]

/-- A successful `mapE` run means every element succeeded. -/
theorem mapE_ok_success {α β : Type} (f : α → Except String β) :
    ∀ (l : List α) (bs : List β), mapE f l = Except.ok bs →
      ∀ a ∈ l, ∃ b, f a = Except.ok b := by
  intro l
  induction l with
  | nil => intro bs _ a ha; simp at ha
  | cons a as ih =>
    intro bs h x hx
    simp only [mapE] at h
    cases hfa : f a with
    | error e => rw [hfa] at h; simp at h
    | ok b =>
      rw [hfa] at h
      cases hrec : mapE f as with
      | error e => rw [hrec] at h; simp at h
      | ok bs2 =>
        rcases List.mem_cons.mp hx with rfl | hx2
        · exact ⟨b, hfa⟩
        · exact ih bs2 hrec x hx2

/-- Full characterization of a successful loop iteration. -/
theorem rowCore_ok_elim (k : String) (g : List Event) (r : RowQ)
    (h : rowCore k g = Except.ok r) :
    ∃ mv mev af,
      logGuard (seriesMax (g.map Event.action_time)) = Except.ok mv ∧
      logGuard (seriesMean (g.map Event.action_time)) = Except.ok mev ∧
      process_activity (g.map Event.activity) = some af ∧
      r = ⟨k, mv, mev, seriesVar (g.map Event.action_time), af,
        process_text_change (g.map Event.text_change)⟩ := by
  simp only [rowCore] at h
  cases h1 : logGuard (seriesMax (g.map Event.action_time)) with
  | error e => rw [h1] at h; simp at h
  | ok mv =>
    rw [h1] at h
    cases h2 : logGuard (seriesMean (g.map Event.action_time)) with
    | error e => rw [h2] at h; simp at h
    | ok mev =>
      rw [h2] at h
      cases h3 : process_activity (g.map Event.activity) with
      | none => rw [h3] at h; simp at h
      | some af =>
        rw [h3] at h
        simp only [Except.ok.injEq] at h
        exact ⟨mv, mev, af, rfl, rfl, rfl, h.symm⟩

/-- A successful loop iteration keeps its group key as the row id. -/
theorem rowCore_id (k : String) (g : List Event) (r : RowQ)
    (h : rowCore k g = Except.ok r) : r.id = k := by
  obtain ⟨mv, mev, af, _, _, _, hr⟩ := rowCore_ok_elim k g r h
  subst hr; rfl

/-- The group keys are distinct. -/
theorem groupKeys_nodup (df : List Event) : (groupKeys df).Nodup := by
  have hperm := List.perm_insertionSort
    (fun a b => strLeB a b = true) ((df.map Event.id).dedup)
  exact hperm.symm.nodup (List.nodup_dedup _)

/-- The group keys are exactly the ids occurring in the input. -/
theorem mem_groupKeys (df : List Event) (k : String) :
    k ∈ groupKeys df ↔ k ∈ df.map Event.id := by
  rw [groupKeys,
    (List.perm_insertionSort (fun a b => strLeB a b = true) _).mem_iff,
    List.mem_dedup]

/-- Distributing a list sum over pointwise addition. -/
theorem sum_map_add_nat (names : List String) (f g : String → ℕ) :
    (names.map fun n => f n + g n).sum = (names.map f).sum + (names.map g).sum := by
  induction names with
  | nil => simp
  | cons b bs ih => simp [ih]; omega

/-- Summing the indicator of one value over a list counts its occurrences. -/
theorem sum_ite_eq_count (a : String) (names : List String) :
    (names.map fun n => if a = n then 1 else 0).sum = names.count a := by
  induction names with
  | nil => simp
  | cons b bs ih =>
    simp only [List.map_cons, List.sum_cons, ih, List.count_cons, beq_iff_eq]
    by_cases hab : a = b
    · subst hab; simp [Nat.add_comm]
    · simp [hab, Ne.symm hab]

/-- Over a duplicate-free vocabulary covering every element, the per-name
counts add up to the list length. -/
theorem sum_count_eq_length (names : List String) (l : List String)
    (hn : names.Nodup) (hl : ∀ x ∈ l, x ∈ names) :
    (names.map fun n => l.count n).sum = l.length := by
  induction l with
  | nil => simp
  | cons a as ih =>
    have ha : a ∈ names := hl a (by simp)
    have has : ∀ x ∈ as, x ∈ names := fun x hx => hl x (by simp [hx])
    have hfun : (fun n => (a :: as).count n) =
        fun n => as.count n + if a = n then 1 else 0 := by
      funext n
      simp [List.count_cons, beq_iff_eq]
    rw [hfun, sum_map_add_nat, ih has, sum_ite_eq_count,
      List.count_eq_one_of_mem hn ha]
    simp

/-- Distributing a rational list sum over division by a constant. -/
theorem sum_map_div_rat (names : List String) (f : String → ℚ) (c : ℚ) :
    (names.map fun n => f n / c).sum = (names.map f).sum / c := by
  induction names with
  | nil => simp
  | cons b bs ih => simp [ih, add_div]

/-- Entries of a frequency vector lie in `[0, 1]`, and over a duplicate-free
vocabulary covering every element of a non-empty list they sum to 1. -/
theorem freq_vector_props (names : List String) (l : List String)
    (hne : l ≠ []) :
    (∀ q ∈ names.map (freqOf l), 0 ≤ q ∧ q ≤ 1) ∧
    (names.Nodup → (∀ x ∈ l, x ∈ names) → (names.map (freqOf l)).sum = 1) := by
  have hlen : 0 < l.length := List.length_pos.mpr hne
  have hlenq : (0 : ℚ) < (l.length : ℚ) := by exact_mod_cast hlen
  constructor
  · intro q hq
    obtain ⟨n, _, hqn⟩ := List.mem_map.mp hq
    subst hqn
    unfold freqOf
    constructor
    · apply div_nonneg (by positivity) (le_of_lt hlenq)
    · rw [div_le_one hlenq]
      exact_mod_cast List.count_le_length n l
  · intro hn hl
    have : names.map (freqOf l) = names.map fun n => ((l.count n : ℚ)) / (l.length : ℚ) := rfl
    rw [this, sum_map_div_rat]
    have hcast : (names.map fun n => ((l.count n : ℕ) : ℚ)).sum
        = (((names.map fun n => l.count n).sum : ℕ) : ℚ) := by
      rw [Nat.cast_list_sum, List.map_map]
      rfl
    rw [hcast, sum_count_eq_length names l hn hl]
    exact div_self (ne_of_gt hlenq)

/-- The left fold of `max` stays among its inputs. -/
theorem foldl_max_mem (l : List ℚ) : ∀ y : ℚ, l.foldl max y ∈ y :: l := by
  induction l with
  | nil => intro y; simp
  | cons a as ih =>
    intro y
    simp only [List.foldl_cons]
    rcases List.mem_cons.mp (ih (max y a)) with h | h
    · rw [h]
      rcases max_choice y a with hm | hm <;> rw [hm] <;> simp
    · exact List.mem_cons_of_mem _ (List.mem_cons_of_mem _ h)

/-- The seed is below the left fold of `max`. -/
theorem init_le_foldl_max (l : List ℚ) : ∀ y : ℚ, y ≤ l.foldl max y := by
  induction l with
  | nil => intro y; simp
  | cons a as ih =>
    intro y
    simp only [List.foldl_cons]
    exact le_trans (le_max_left y a) (ih (max y a))

/-- Every element is below the left fold of `max`. -/
theorem le_foldl_max (l : List ℚ) : ∀ (y x : ℚ), x ∈ l → x ≤ l.foldl max y := by
  induction l with
  | nil => intro y x hx; simp at hx
  | cons a as ih =>
    intro y x hx
    simp only [List.foldl_cons]
    rcases List.mem_cons.mp hx with rfl | hx2
    · exact le_trans (le_max_right y x) (init_le_foldl_max as (max y x))
    · exact ih (max y a) x hx2

/-- Dropping nulls from an all-non-null column gives the values back. -/
theorem dropna_map_some (l : List ℚ) : dropna (l.map some) = l := by
  induction l with
  | nil => rfl
  | cons a as ih =>
    simp only [dropna, List.map_cons, List.filterMap_cons, id] at ih ⊢
    simp [ih]

/-! Concrete example inputs, used by witnesses and by the claims that state
behaviour at a concrete input. -/

/-- Three events over two ids, in unsorted id order. -/
def exEvents1 : List Event :=
  [⟨("b"), some 5, ("Paste"), ("q")⟩, ⟨("a"), some 1, ("Input"), ("q")⟩,
   ⟨("a"), some 3, ("Input"), ("x")⟩]

/-- The feature core `prepare_core` computes for `exEvents1`. -/
def exRows1 : List RowQ :=
  [⟨("a"), some 3, some 2, some 2, [0, 1, 0, 0, 0, 0], [1/2, 1/2]⟩,
   ⟨("b"), some 5, some 5, none, [0, 0, 0, 1, 0, 0], [1, 0]⟩]

/-- Evaluation of the grouped loop on `exEvents1`. -/
theorem prepare_core_exEvents1 : prepare_core exEvents1 = Except.ok exRows1 := by
  have hb1 : bucketActivity ("Input") = ("input") := by decide
  have hb2 : bucketActivity ("Paste") = ("paste") := by decide
  have ht1 : bucketTextChange ("q") = ("alphanum") := by decide
  have ht2 : bucketTextChange ("x") = ("other") := by decide
  simp +decide [exEvents1, exRows1, prepare_core, groupKeys, groupOf, mapE, rowCore,
    seriesMax, seriesMean, seriesVar, dropna, logGuard, process_activity,
    process_text_change, freqOf, ACTIVITY_NAMES, TEXT_CHANGE_NAMES,
    List.insertionSort, List.orderedInsert, strLeB, charsLe, List.dedup,
    List.count_cons, List.count_nil, hb1, hb2, ht1, ht2, max_def]
  norm_num

/-- C1. For every well-formed non-empty input event table, the feature table
returned by `prepare_data` has exactly one row per distinct `id` value of the
input: the row ids are duplicate-free, an id occurs among them exactly when it
occurs in the input, and the table is non-empty. -/
theorem prepare_data_one_row_per_distinct_id (df : List Event) (rows : List RowQ)
    (hok : prepare_core df = Except.ok rows) (hne : df ≠ []) :
    prepare_data df none =
      Except.ok (Sum.inl ⟨FEATURE_COLUMNS, rows.map mkRow⟩) ∧
    ((rows.map mkRow).map Row.id).Nodup ∧
    (∀ k, k ∈ (rows.map mkRow).map Row.id ↔ k ∈ df.map Event.id) ∧
    rows.map mkRow ≠ [] := by
  have hid : (rows.map mkRow).map Row.id = groupKeys df := by
    have hq : rows.map RowQ.id = groupKeys df :=
      mapE_ok_map _ RowQ.id (fun k r h => rowCore_id k _ r h) _ _ hok
    rw [List.map_map]
    have : Row.id ∘ mkRow = RowQ.id := by funext r; rfl
    rw [this, hq]
  refine ⟨by simp [prepare_data, hok], ?_, ?_, ?_⟩
  · rw [hid]; exact groupKeys_nodup df
  · intro k; rw [hid]; exact mem_groupKeys df k
  · obtain ⟨e, he⟩ : ∃ e, e ∈ df := by
      cases df with
      | nil => exact absurd rfl hne
      | cons e es => exact ⟨e, by simp⟩
    have hmem : e.id ∈ (rows.map mkRow).map Row.id := by
      rw [hid]
      exact (mem_groupKeys df _).mpr (List.mem_map_of_mem Event.id he)
    intro hcon
    rw [hcon] at hmem
    simp at hmem

/-- Witness for C1 at the concrete input `exEvents1`. -/
theorem prepare_data_one_row_per_distinct_id_witness :
    prepare_core exEvents1 = Except.ok exRows1 ∧ exEvents1 ≠ [] ∧
    (∀ k, k ∈ (exRows1.map mkRow).map Row.id ↔ k ∈ exEvents1.map Event.id) := by
  refine ⟨prepare_core_exEvents1, by simp [exEvents1], ?_⟩
  exact (prepare_data_one_row_per_distinct_id exEvents1 exRows1
    prepare_core_exEvents1 (by simp [exEvents1])).2.2.1

/-- Every text-change bucket lands in the two-name vocabulary. -/
theorem bucketTextChange_mem (x : String) :
    bucketTextChange x ∈ TEXT_CHANGE_NAMES := by
  unfold bucketTextChange TEXT_CHANGE_NAMES
  split <;> simp

/-- C2. For every non-empty event group, each categorical frequency vector
produced (the 6 activity entries, the 2 text-change entries) has every entry
in `[0, 1]` and sums to 1 — exactly, hence within any floating-point
tolerance. -/
theorem categorical_freq_vectors_sum_to_one (acts tcs : List String)
    (ha : acts ≠ []) (ht : tcs ≠ []) :
    (∀ fr, process_activity acts = some fr →
        (∀ q ∈ fr, 0 ≤ q ∧ q ≤ 1) ∧ fr.sum = 1 ∧ fr.length = 6) ∧
    (∀ q ∈ process_text_change tcs, 0 ≤ q ∧ q ≤ 1) ∧
    (process_text_change tcs).sum = 1 ∧
    (process_text_change tcs).length = 2 := by
  constructor
  · intro fr hfr
    simp only [process_activity] at hfr
    split at hfr
    case isTrue hall =>
      simp only [Option.some.injEq] at hfr
      subst hfr
      have hmne : acts.map bucketActivity ≠ [] := by
        intro hcon
        exact ha (List.map_eq_nil_iff.mp hcon)
      have hcover : ∀ x ∈ acts.map bucketActivity, x ∈ ACTIVITY_NAMES := by
        intro x hx
        have := List.all_eq_true.mp hall x hx
        simpa using this
      refine ⟨(freq_vector_props _ _ hmne).1,
        (freq_vector_props _ _ hmne).2 (by decide) hcover, by simp [ACTIVITY_NAMES]⟩
    case isFalse => simp at hfr
  · have hmne : tcs.map bucketTextChange ≠ [] := by
      intro hcon
      exact ht (List.map_eq_nil_iff.mp hcon)
    have hcover : ∀ x ∈ tcs.map bucketTextChange, x ∈ TEXT_CHANGE_NAMES := by
      intro x hx
      obtain ⟨y, _, hy⟩ := List.mem_map.mp hx
      exact hy ▸ bucketTextChange_mem y
    exact ⟨(freq_vector_props _ _ hmne).1,
      (freq_vector_props _ _ hmne).2 (by decide) hcover,
      by simp [process_text_change, TEXT_CHANGE_NAMES]⟩

/-- Witness for C2 at the concrete groups `['Input']` and `['q']`. -/
theorem categorical_freq_vectors_sum_to_one_witness :
    (["Input"] : List String) ≠ [] ∧ (["q"] : List String) ≠ [] ∧
    (process_text_change [("q")]).sum = 1 ∧
    (∀ fr, process_activity [("Input")] = some fr →
      (∀ q ∈ fr, 0 ≤ q ∧ q ≤ 1) ∧ fr.sum = 1 ∧ fr.length = 6) := by
  refine ⟨by simp, by simp, ?_, ?_⟩
  · exact (categorical_freq_vectors_sum_to_one [("Input")] [("q")]
      (by simp) (by simp)).2.2.1
  · exact (categorical_freq_vectors_sum_to_one [("Input")] [("q")]
      (by simp) (by simp)).1

/-- A two-event group with `action_time = [1, 3]`. -/
def exEvents3 : List Event :=
  [⟨("w"), some 1, ("Input"), ("q")⟩, ⟨("w"), some 3, ("Input"), ("q")⟩]

/-- The feature core `rowCore` computes for `exEvents3`. -/
def exRow3 : RowQ := ⟨("w"), some 3, some 2, some 2, [0, 1, 0, 0, 0, 0], [1, 0]⟩

/-- Evaluation of the loop body on `exEvents3`. -/
theorem rowCore_exEvents3 : rowCore ("w") exEvents3 = Except.ok exRow3 := by
  have hb1 : bucketActivity ("Input") = ("input") := by decide
  have ht1 : bucketTextChange ("q") = ("alphanum") := by decide
  simp +decide [exEvents3, exRow3, rowCore, seriesMax, seriesMean, seriesVar,
    dropna, logGuard, process_activity, process_text_change, freqOf,
    ACTIVITY_NAMES, TEXT_CHANGE_NAMES, List.count_cons, List.count_nil,
    hb1, ht1, max_def]
  norm_num

/-- C3. For a group whose `action_time` column holds non-negative values with
no nulls, the three timing outputs are `log(max + 1)`, `log(mean + 1)` and
`log(std + 1)`, with mean the arithmetic mean and std the `ddof=1` sample
standard deviation; in particular the group with `action_time = [1, 3]` gets
`action_time_mean_log = log 3` and `action_time_max_log = log 4`. -/
theorem timing_outputs_are_log_statistics (k : String) (g : List Event)
    (l : List ℚ) (hts : g.map Event.action_time = l.map some)
    (hne : l ≠ []) (hnn : ∀ x ∈ l, 0 ≤ x) (r : RowQ)
    (hok : rowCore k g = Except.ok r) :
    (∃ m, m ∈ l ∧ (∀ x ∈ l, x ≤ m) ∧
        (mkRow r).action_time_max_log = some (Real.log ((m : ℝ) + 1))) ∧
    (mkRow r).action_time_mean_log =
      some (Real.log (((l.sum / (l.length : ℚ) : ℚ) : ℝ) + 1)) ∧
    (2 ≤ l.length →
      (mkRow r).action_time_std_log =
        some (Real.log (Real.sqrt
          (((l.map fun x => (x - l.sum / (l.length : ℚ)) ^ 2).sum /
            ((l.length : ℚ) - 1) : ℚ) : ℝ)
          + 1))) ∧
    rowCore ("w") exEvents3 = Except.ok exRow3 ∧
    (mkRow exRow3).action_time_mean_log = some (Real.log 3) ∧
    (mkRow exRow3).action_time_max_log = some (Real.log 4) := by
  obtain ⟨mv, mev, af, h1, h2, _, hr⟩ := rowCore_ok_elim k g r hok
  rw [hts] at h1 h2
  cases l with
  | nil => exact absurd rfl hne
  | cons y ys =>
  simp only [seriesMax, seriesMean, dropna_map_some] at h1 h2
  have hmem : ys.foldl max y ∈ y :: ys := foldl_max_mem ys y
  have hub : ∀ x ∈ y :: ys, x ≤ ys.foldl max y := by
    intro x hx
    rcases List.mem_cons.mp hx with rfl | hx2
    · exact init_le_foldl_max ys x
    · exact le_foldl_max ys y x hx2
  have hmnn : (0 : ℚ) ≤ ys.foldl max y := hnn _ hmem
  have hguard1 : ¬(ys.foldl max y + 1 ≤ 0) := by linarith
  simp only [logGuard, if_neg hguard1, Except.ok.injEq] at h1
  have hmean_nn : (0 : ℚ) ≤ (y :: ys).sum / ((y :: ys).length : ℚ) := by
    apply div_nonneg (List.sum_nonneg hnn)
    positivity
  have hguard2 : ¬((y :: ys).sum / ((y :: ys).length : ℚ) + 1 ≤ 0) := by linarith
  simp only [logGuard, if_neg hguard2, Except.ok.injEq] at h2
  subst hr
  refine ⟨⟨ys.foldl max y, hmem, hub, ?_⟩, ?_, ?_, rowCore_exEvents3, ?_, ?_⟩
  · simp [mkRow, ← h1]
  · simp [mkRow, ← h2]
  · intro hlen
    cases ys with
    | nil => simp at hlen
    | cons z zs =>
      have hvar : seriesVar (g.map Event.action_time) =
          some (((y :: z :: zs).map
              (fun x => (x - (y :: z :: zs).sum / (((y :: z :: zs).length : ℚ))) ^ 2)).sum /
            (((y :: z :: zs).length : ℚ) - 1)) := by
        rw [hts]
        simp only [seriesVar, dropna_map_some]
      simp [mkRow, hvar]
  · simp [mkRow, exRow3]
    norm_num
  · simp [mkRow, exRow3]
    norm_num

/-- Witness for C3 at the concrete group `exEvents3`. -/
theorem timing_outputs_are_log_statistics_witness :
    exEvents3.map Event.action_time = [(1 : ℚ), 3].map some ∧
    (mkRow exRow3).action_time_mean_log = some (Real.log
      ((([(1 : ℚ), 3].sum / (([(1 : ℚ), 3].length : ℚ) : ℚ) : ℚ) : ℝ) + 1)) := by
  have hts : exEvents3.map Event.action_time = [(1 : ℚ), 3].map some := by
    simp [exEvents3]
  refine ⟨hts, ?_⟩
  have h := (timing_outputs_are_log_statistics ("w") exEvents3 [(1 : ℚ), 3] hts
    (by simp) (by decide) exRow3 rowCore_exEvents3).2.1
  -- the row the loop body returns for this group is `exRow3` itself
  exact h

/-- A single-event group. -/
def exEvents4 : List Event := [⟨("a"), some 5, ("Input"), ("q")⟩]

/-- The feature core computed for `exEvents4`: its variance slot is NaN. -/
def exRow4 : RowQ := ⟨("a"), some 5, some 5, none, [0, 1, 0, 0, 0, 0], [1, 0]⟩

/-- C4 (against the code). For a single-event group the source takes the
`ddof=1` standard deviation of one sample, which is NaN, and `log(NaN + 1)`
is NaN, so `action_time_std_log` is NaN — not 0, and not finite — while the
row is still produced. -/
theorem single_event_group_std_log_is_nan :
    prepare_core exEvents4 = Except.ok [exRow4] ∧
    exRow4.varv = none ∧
    (mkRow exRow4).action_time_std_log = none ∧
    prepare_data exEvents4 none =
      Except.ok (Sum.inl ⟨FEATURE_COLUMNS, [mkRow exRow4]⟩) := by
  have hb1 : bucketActivity ("Input") = ("input") := by decide
  have ht1 : bucketTextChange ("q") = ("alphanum") := by decide
  have hcore : prepare_core exEvents4 = Except.ok [exRow4] := by
    simp +decide [exEvents4, exRow4, prepare_core, groupKeys, groupOf, mapE,
      rowCore, seriesMax, seriesMean, seriesVar, dropna, logGuard,
      process_activity, process_text_change, freqOf, ACTIVITY_NAMES,
      TEXT_CHANGE_NAMES, List.insertionSort, List.orderedInsert, strLeB,
      charsLe, List.dedup, List.count_cons, List.count_nil, hb1, ht1, max_def]
    norm_num
  exact ⟨hcore, rfl, rfl, by simp [prepare_data, hcore]⟩

/-- C5. The activity bucketing: a raw value containing the substring `Move`
goes to the bucket `move`, every other raw value is lower-cased, and the
frequencies come out in the fixed vocabulary order with explicit zeros; in
particular `['Input', 'Remove/Cut', 'Move To']` gives
`[0, 1/3, 1/3, 0, 0, 1/3]`. -/
theorem activity_bucketing_and_frequencies :
    process_activity [("Input"), ("Remove/Cut"), ("Move To")] =
      some [0, 1/3, 1/3, 0, 0, 1/3] ∧
    [("Input"), ("Remove/Cut"), ("Move To")].map bucketActivity =
      [("input"), ("remove/cut"), ("move")] ∧
    (∀ x : String, pyIn ("Move") x = true → bucketActivity x = ("move")) ∧
    (∀ x : String, pyIn ("Move") x = false → bucketActivity x = pyLower x) ∧
    (∀ (l : List String) (fr : List ℚ), process_activity l = some fr →
      fr = ACTIVITY_NAMES.map (freqOf (l.map bucketActivity))) := by
  refine ⟨?_, by decide, ?_, ?_, ?_⟩
  · have hb : [("Input"), ("Remove/Cut"), ("Move To")].map bucketActivity =
        [("input"), ("remove/cut"), ("move")] := by decide
    simp +decide [process_activity, hb, ACTIVITY_NAMES, freqOf,
      List.count_cons, List.count_nil]
  · intro x h; simp [bucketActivity, h]
  · intro x h; simp [bucketActivity, h]
  · intro l fr h
    simp only [process_activity] at h
    split at h
    · simp only [Option.some.injEq] at h
      exact h.symm
    · simp at h

/-- Witness instantiating the C5 bucketing clauses at concrete raw values. -/
theorem activity_bucketing_and_frequencies_witness :
    pyIn ("Move") ("Move To") = true ∧ bucketActivity ("Move To") = ("move") ∧
    pyIn ("Move") ("Remove/Cut") = false ∧
    bucketActivity ("Remove/Cut") = pyLower ("Remove/Cut") := by
  refine ⟨by decide, ?_, by decide, ?_⟩
  · exact activity_bucketing_and_frequencies.2.2.1 ("Move To") (by decide)
  · exact activity_bucketing_and_frequencies.2.2.2.1 ("Remove/Cut") (by decide)

/-- An event whose activity value is outside the recognized set. -/
def exEventBad : Event := ⟨("c"), some 1, ("Weird"), ("q")⟩

/-- C6. An input containing an activity value whose bucket is outside the six
vocabulary names makes the whole transform fail: `prepare_data` returns an
error, so no feature table (not even a partial one) is produced. -/
theorem unrecognized_activity_aborts_transform (df : List Event)
    (labels : Option LabelFrame) (e : Event) (he : e ∈ df)
    (hbad : bucketActivity e.activity ∉ ACTIVITY_NAMES) :
    ∃ msg, prepare_data df labels = Except.error msg := by
  cases hok : prepare_core df with
  | error msg => exact ⟨msg, by simp [prepare_data, hok]⟩
  | ok rows =>
    exfalso
    have hkey : e.id ∈ groupKeys df :=
      (mem_groupKeys df _).mpr (List.mem_map_of_mem Event.id he)
    obtain ⟨r, hr⟩ := mapE_ok_success _ _ _ hok _ hkey
    obtain ⟨mv, mev, af, _, _, hact, _⟩ := rowCore_ok_elim _ _ _ hr
    apply hbad
    simp only [process_activity] at hact
    split at hact
    case isTrue hall =>
      have hin : e ∈ groupOf df e.id := by
        simp [groupOf, he]
      have hmem : bucketActivity e.activity ∈
          ((groupOf df e.id).map Event.activity).map bucketActivity :=
        List.mem_map_of_mem _ (List.mem_map_of_mem Event.activity hin)
      have := List.all_eq_true.mp hall _ hmem
      simpa using this
    case isFalse => simp at hact

/-- Witness for C6 at the concrete bad input `[exEventBad]`. -/
theorem unrecognized_activity_aborts_transform_witness :
    exEventBad ∈ [exEventBad] ∧
    bucketActivity exEventBad.activity ∉ ACTIVITY_NAMES ∧
    ∃ msg, prepare_data [exEventBad] none = Except.error msg := by
  refine ⟨by simp, by decide, ?_⟩
  exact unrecognized_activity_aborts_transform [exEventBad] none exEventBad
    (by simp) (by decide)

/-- A group with a missing `action_time` next to a present one. -/
def exEvents7 : List Event :=
  [⟨("a"), none, ("Input"), ("q")⟩, ⟨("a"), some 2, ("Input"), ("q")⟩]

/-- The row the loop produces for `exEvents7`: the null was silently
skipped, the statistics were taken over the one remaining value. -/
def exRow7 : RowQ := ⟨("a"), some 2, some 2, none, [0, 1, 0, 0, 0, 0], [1, 0]⟩

/-- A group with a negative `action_time`. -/
def exEvents7n : List Event := [⟨("b"), some (-1/2), ("Input"), ("q")⟩]

/-- The row the loop produces for `exEvents7n`: the negative duration is
accepted and flows into the statistics. -/
def exRow7n : RowQ :=
  ⟨("b"), some (-1/2), some (-1/2), none, [0, 1, 0, 0, 0, 0], [1, 0]⟩

/-- C7 (against the code). A group with a missing (null) `action_time` is not
rejected: pandas drops the null (`skipna`) and the row is produced from the
remaining values; a group with a negative `action_time` is not rejected
either — the transform succeeds and returns feature rows, raising no
validation error. -/
theorem missing_or_negative_action_time_not_rejected :
    prepare_core exEvents7 = Except.ok [exRow7] ∧
    exRow7.maxv = some 2 ∧
    prepare_core exEvents7n = Except.ok [exRow7n] ∧
    prepare_data exEvents7 none =
      Except.ok (Sum.inl ⟨FEATURE_COLUMNS, [mkRow exRow7]⟩) ∧
    prepare_data exEvents7n none =
      Except.ok (Sum.inl ⟨FEATURE_COLUMNS, [mkRow exRow7n]⟩) := by
  have hb1 : bucketActivity ("Input") = ("input") := by decide
  have ht1 : bucketTextChange ("q") = ("alphanum") := by decide
  have h7 : prepare_core exEvents7 = Except.ok [exRow7] := by
    simp +decide [exEvents7, exRow7, prepare_core, groupKeys, groupOf, mapE,
      rowCore, seriesMax, seriesMean, seriesVar, dropna, logGuard,
      process_activity, process_text_change, freqOf, ACTIVITY_NAMES,
      TEXT_CHANGE_NAMES, List.insertionSort, List.orderedInsert, strLeB,
      charsLe, List.dedup, List.count_cons, List.count_nil, hb1, ht1, max_def]
    norm_num
  have h7n : prepare_core exEvents7n = Except.ok [exRow7n] := by
    simp +decide [exEvents7n, exRow7n, prepare_core, groupKeys, groupOf, mapE,
      rowCore, seriesMax, seriesMean, seriesVar, dropna, logGuard,
      process_activity, process_text_change, freqOf, ACTIVITY_NAMES,
      TEXT_CHANGE_NAMES, List.insertionSort, List.orderedInsert, strLeB,
      charsLe, List.dedup, List.count_cons, List.count_nil, hb1, ht1, max_def]
    norm_num
  exact ⟨h7, rfl, h7n, by simp [prepare_data, h7], by simp [prepare_data, h7n]⟩

/-- C8. The text-change bucketing is total: the literal `q` goes to
`alphanum`, anything else to `other`, every bucket is in the two-name
vocabulary, and the output always has its two entries; in particular
`['q', 'q', 'x']` gives `alphanum = 2/3`, `other = 1/3`. -/
theorem text_change_bucketing_total_and_example :
    process_text_change [("q"), ("q"), ("x")] = [2/3, 1/3] ∧
    bucketTextChange ("q") = ("alphanum") ∧
    (∀ x : String, x ≠ ("q") → bucketTextChange x = ("other")) ∧
    (∀ x : String, bucketTextChange x ∈ TEXT_CHANGE_NAMES) ∧
    (∀ l : List String, (process_text_change l).length = 2) := by
  refine ⟨?_, by decide, ?_, bucketTextChange_mem, ?_⟩
  · have hb : [("q"), ("q"), ("x")].map bucketTextChange =
        [("alphanum"), ("alphanum"), ("other")] := by decide
    simp +decide [process_text_change, hb, TEXT_CHANGE_NAMES, freqOf,
      List.count_cons, List.count_nil]
  · intro x h; simp [bucketTextChange, h]
  · intro l; simp [process_text_change, TEXT_CHANGE_NAMES]

/-- One step of the left join. -/
theorem merge_left_cons {α : Type} (key : α → String) (r : α) (rs : List α)
    (ls : List (String × ℚ)) :
    merge_left key (r :: rs) ls =
      (match ls.filter (fun p => p.1 = key r) with
        | [] => [(r, (none : Option ℚ))]
        | m :: ms => (m :: ms).map (fun p => (r, some p.2))) ++
      merge_left key rs ls := by
  simp [merge_left]

/-- Row multiplicity of the left join: each left row appears once per
matching right row, and once with no match. -/
theorem merge_left_map_fst {α : Type} (key : α → String)
    (ls : List (String × ℚ)) :
    ∀ rows : List α, (merge_left key rows ls).map Prod.fst =
      rows.flatMap (fun r =>
        List.replicate (max 1 (ls.filter (fun p => p.1 = key r)).length) r) := by
  intro rows
  induction rows with
  | nil => simp [merge_left]
  | cons r rs ih =>
    rw [merge_left_cons, List.map_append, ih, List.flatMap_cons]
    congr 1
    cases hf : ls.filter (fun p => p.1 = key r) with
    | nil => simp
    | cons m ms =>
      have hmax : max 1 (ms.length + 1) = ms.length + 1 := by omega
      have hconst : (Prod.fst ∘ fun p : String × ℚ => (r, some p.2)) =
          fun _ => r := by
        funext p; rfl
      simp [List.map_map, hconst, hmax, List.map_const', List.replicate_succ]

/-- A left row with no matching label is joined with a null label. -/
theorem merge_left_none_mem {α : Type} (key : α → String)
    (ls : List (String × ℚ)) :
    ∀ (rows : List α) (r : α), r ∈ rows →
      ls.filter (fun p => p.1 = key r) = [] →
      (r, (none : Option ℚ)) ∈ merge_left key rows ls := by
  intro rows
  induction rows with
  | nil => intro r hr; simp at hr
  | cons a as ih =>
    intro r hr hf
    rw [merge_left_cons]
    rcases List.mem_cons.mp hr with rfl | hr2
    · rw [hf]; simp
    · exact List.mem_append_right _ (ih r hr2 hf)

/-- A one-row feature table. -/
def exEvents9 : List Event := [⟨("a"), some 1, ("Input"), ("q")⟩]

/-- The feature core computed for `exEvents9`. -/
def exRow9 : RowQ := ⟨("a"), some 1, some 1, none, [0, 1, 0, 0, 0, 0], [1, 0]⟩

/-- A label table with two rows for the same id. -/
def exLabels9 : LabelFrame := ⟨("score"), [(("a"), 1), (("a"), 2)]⟩

/-- Evaluation of the grouped loop on `exEvents9`. -/
theorem prepare_core_exEvents9 : prepare_core exEvents9 = Except.ok [exRow9] := by
  have hb1 : bucketActivity ("Input") = ("input") := by decide
  have ht1 : bucketTextChange ("q") = ("alphanum") := by decide
  simp +decide [exEvents9, exRow9, prepare_core, groupKeys, groupOf, mapE,
    rowCore, seriesMax, seriesMean, seriesVar, dropna, logGuard,
    process_activity, process_text_change, freqOf, ACTIVITY_NAMES,
    TEXT_CHANGE_NAMES, List.insertionSort, List.orderedInsert, strLeB,
    charsLe, List.dedup, List.count_cons, List.count_nil, hb1, ht1, max_def]

/-- C9 counterexample. With one feature row (id `a`) and a label table that
holds two rows for id `a`, the joined output has two rows: the pandas left
merge duplicates the feature row once per matching label row, so the claim
that no feature row is ever duplicated fails. -/
theorem label_join_duplicates_on_duplicate_ids :
    ∃ fr : Frame (Row × Option ℚ),
      prepare_data exEvents9 (some exLabels9) = Except.ok (Sum.inr fr) ∧
      fr.rows.length = 2 ∧
      (∃ fr1 : Frame Row,
        prepare_data exEvents9 none = Except.ok (Sum.inl fr1) ∧
        fr1.rows.length = 1) := by
  refine ⟨⟨FEATURE_COLUMNS ++ [exLabels9.label_col],
      merge_left Row.id ([exRow9].map mkRow) exLabels9.lrows⟩, ?_, ?_, ?_⟩
  · simp [prepare_data, prepare_core_exEvents9]
  · simp +decide [merge_left, exLabels9, mkRow, exRow9]
  · exact ⟨⟨FEATURE_COLUMNS, [exRow9].map mkRow⟩,
      by simp [prepare_data, prepare_core_exEvents9], by simp⟩

/-- C9 amended. When labels are provided, `prepare_data` returns the pandas
left join on `id`: every feature row appears, a feature row with no matching
label is paired with a null label value, and a feature row with k matching
label rows appears exactly k times (duplicate label ids duplicate the
feature row); when labels are omitted the feature table is returned
unchanged. -/
theorem label_join_left_outer_amended (df : List Event) (core : List RowQ)
    (hok : prepare_core df = Except.ok core) (lf : LabelFrame) :
    prepare_data df none =
      Except.ok (Sum.inl ⟨FEATURE_COLUMNS, core.map mkRow⟩) ∧
    prepare_data df (some lf) = Except.ok (Sum.inr
      ⟨FEATURE_COLUMNS ++ [lf.label_col],
        merge_left Row.id (core.map mkRow) lf.lrows⟩) ∧
    (merge_left Row.id (core.map mkRow) lf.lrows).map Prod.fst =
      (core.map mkRow).flatMap (fun r =>
        List.replicate (max 1 (lf.lrows.filter (fun p => p.1 = r.id)).length) r) ∧
    (∀ r ∈ core.map mkRow, lf.lrows.filter (fun p => p.1 = r.id) = [] →
      (r, (none : Option ℚ)) ∈ merge_left Row.id (core.map mkRow) lf.lrows) := by
  refine ⟨by simp [prepare_data, hok], by simp [prepare_data, hok],
    merge_left_map_fst Row.id lf.lrows _, ?_⟩
  intro r hr hf
  exact merge_left_none_mem Row.id lf.lrows _ r hr hf

/-- Witness for the amended C9 at the concrete tables `exEvents9`,
`exLabels9`. -/
theorem label_join_left_outer_amended_witness :
    prepare_core exEvents9 = Except.ok [exRow9] ∧
    (merge_left Row.id ([exRow9].map mkRow) exLabels9.lrows).map Prod.fst =
      ([exRow9].map mkRow).flatMap (fun r =>
        List.replicate
          (max 1 (exLabels9.lrows.filter (fun p => p.1 = r.id)).length) r) :=
  ⟨prepare_core_exEvents9,
   (label_join_left_outer_amended exEvents9 [exRow9]
      prepare_core_exEvents9 exLabels9).2.2.1⟩

/-- C10. An empty input produces an empty feature table that still carries
the full fixed column schema, in order. -/
theorem empty_input_keeps_fixed_schema :
    prepare_data [] none = Except.ok (Sum.inl ⟨FEATURE_COLUMNS, []⟩) ∧
    FEATURE_COLUMNS =
      [("id"), ("action_time_max_log"), ("action_time_mean_log"),
       ("action_time_std_log"), ("nonproduction"), ("input"), ("remove/cut"),
       ("paste"), ("replace"), ("move"), ("alphanum"), ("other")] := by
  constructor
  · simp [prepare_data, prepare_core, groupKeys, mapE]
  · decide
